import Mathlib

/-!
Shallow embedding of `src/analyzer.py` (jira-build-health-action): the JUnit
XML report parser, the history aggregator (`process_builds`), and the scoring /
payload step (`generate_payload`).  Python strings are Lean `String`s, Python
floats are `ℚ`, Python's insertion-ordered `dict` is an association list kept
in insertion order.  The HTTP upload (`upload_to_jira`) and CLI plumbing are
external I/O and are not modelled.
-/

namespace BuildHealth

/-- Test status strings used by the analyzer: "PASS", "FAIL", "SKIP". -/
inductive Status where
  | PASS
  | FAIL
  | SKIP
  deriving DecidableEq, Repr

/-- `class TestResult` of analyzer.py (name, status, message, duration). -/
structure TestResult where
  name : String
  status : Status
  message : String
  duration : ℚ
  deriving DecidableEq, Repr

/-! ### Python primitives used by the analyzer -/

/-- Python's insertion-ordered `d[k] = v`: overwrite in place when the key is
present, append at the end otherwise. -/
def dictSet (k : String) (v : α) : List (String × α) → List (String × α)
  | [] => [(k, v)]
  | (k', v') :: rest => if k' = k then (k, v) :: rest else (k', v') :: dictSet k v rest

/-- Python's `d[k]` / `k in d` on an insertion-ordered dict. -/
def dictLookup (k : String) : List (String × α) → Option α
  | [] => none
  | (k', v) :: rest => if k' = k then some v else dictLookup k rest

/-- Python's `d.values()` in insertion order. -/
def dictValues (d : List (String × α)) : List α := d.map (·.2)

/-- Python's `s.strip()`: drop whitespace from both ends. -/
def pyStrip (s : String) : String :=
  ⟨((s.data.dropWhile Char.isWhitespace).reverse.dropWhile Char.isWhitespace).reverse⟩

/-- Python's `s.replace("\n", " ")`: every newline becomes one space. -/
def collapseNewlines (s : String) : String :=
  ⟨s.data.map (fun c => if c = '\n' then ' ' else c)⟩

/-- Python's truthiness chain `a or b` on strings: `b` when `a` is empty. -/
def pyOr (a b : String) : String := if a = "" then b else a

/-- Numeric value of a digit string (most significant first). -/
def digitsToNat (cs : List Char) : ℕ := cs.foldl (fun a c => 10 * a + (c.toNat - 48)) 0

/-- Models Python's `float(s)` on ordinary decimal literals: surrounding
whitespace, an optional sign, digits, an optional `.` and fraction digits.
`none` models the `ValueError` that `float` raises on any other content
(for example `float("abc")`). -/
def pyFloat (s : String) : Option ℚ :=
  let cs := (pyStrip s).data
  let signed : ℚ × List Char :=
    match cs with
    | '-' :: rest => (-1, rest)
    | '+' :: rest => (1, rest)
    | rest => (1, rest)
  let intDigits := signed.2.takeWhile Char.isDigit
  match signed.2.drop intDigits.length with
  | [] =>
    if intDigits.isEmpty then none
    else some (signed.1 * (digitsToNat intDigits : ℚ))
  | '.' :: fracDigits =>
    if fracDigits.all Char.isDigit && !(intDigits.isEmpty && fracDigits.isEmpty) then
      some (signed.1 * ((digitsToNat intDigits : ℚ) +
        (digitsToNat fracDigits : ℚ) / (10 : ℚ) ^ fracDigits.length))
    else none
  | _ => none

/-- Python's `round(x, 2)` idealised over exact rationals: round `x * 100` to
an integer, ties to the even integer, divide back by 100. -/
def round2 (x : ℚ) : ℚ :=
  let y := x * 100
  let f : ℤ := ⌊y⌋
  let frac := y - (f : ℚ)
  let r : ℤ :=
    if frac < 1 / 2 then f
    else if 1 / 2 < frac then f + 1
    else if f % 2 = 0 then f else f + 1
  (r : ℚ) / 100

/-! ### The XML report model (ElementTree view of one input file) -/

/-- A `<failure>` or `<error>` child element: its optional `message` attribute
(`none` = attribute absent) and its optional inline text (`none` = no text,
as ElementTree's `.text` is `None` for an empty element). -/
structure XmlNode where
  message : Option String
  text : Option String
  deriving DecidableEq, Repr

/-- A `<testcase>` element as the analyzer reads it: `classname`, `name` and
`time` attributes (`none` = absent), the first `<failure>` child, the first
`<error>` child, and whether a `<skipped>` child is present. -/
structure XmlTestCase where
  classname : Option String
  name : Option String
  time : Option String
  failure : Option XmlNode
  error : Option XmlNode
  skipped : Bool
  deriving DecidableEq, Repr

/-- A `<testsuite>` element: its `<testcase>` children in document order. -/
structure XmlTestSuite where
  cases : List XmlTestCase
  deriving DecidableEq, Repr

/-- One report file as `ET.parse` sees it: unparseable, a `<testsuites>` root
with its `<testsuite>` children, or a single-suite root. -/
inductive XmlReport where
  | malformed
  | testsuites (suites : List XmlTestSuite)
  | single (root : XmlTestSuite)
  deriving DecidableEq, Repr

/-- `message = node.get('message', '') or node.text or placeholder`
(lines 53 and 57 of analyzer.py). -/
def nodeMessage (node : XmlNode) (placeholder : String) : String :=
  pyOr (node.message.getD "") (pyOr (node.text.getD "") placeholder)

/-- The per-`testcase` body of `parse_xml_file` (lines 45-61): name from
`classname`/`name` with `'unknown'` defaults, duration from
`float(case.get('time', 0.0))` — whose `ValueError` on a non-numeric `time`
attribute is NOT caught and is modelled as `.error` — then FAIL via the first
`failure` child, else FAIL via the first `error` child, else SKIP via a
`skipped` child, else PASS. -/
def parseCase (c : XmlTestCase) : Except String TestResult :=
  match (match c.time with | none => some (0 : ℚ) | some s => pyFloat s) with
  | none => .error "ValueError: could not convert string to float"
  | some duration =>
    let full_name := c.classname.getD "unknown" ++ "." ++ c.name.getD "unknown"
    match c.failure with
    | some fail_node => .ok ⟨full_name, .FAIL, nodeMessage fail_node "Unknown failure", duration⟩
    | none =>
      match c.error with
      | some err_node => .ok ⟨full_name, .FAIL, nodeMessage err_node "Unknown error", duration⟩
      | none => .ok ⟨full_name, if c.skipped then .SKIP else .PASS, "", duration⟩

/-- `parse_xml_file` (lines 33-62): an unparseable file is caught by the
`try/except` and yields `[]` (after a warning on stderr); otherwise the suites
are the `<testsuite>` children of a `<testsuites>` root, or the root itself,
and every `<testcase>` is converted in document order.  A `ValueError` escaping
from the float conversion aborts the whole call (`.error`). -/
def parse_xml_file : XmlReport → Except String (List TestResult)
  | .malformed => .ok []
  | .testsuites suites => ((suites.map XmlTestSuite.cases).flatten).mapM parseCase
  | .single root => root.cases.mapM parseCase

/-! ### The aggregator (`BuildHealthAgent.process_builds`, lines 64-95) -/

/-- The mutable state of `BuildHealthAgent.__init__`. -/
structure BuildHealthAgent where
  history : List (String × List Status) := []
  latest_results : List (String × TestResult) := []
  total_duration : ℚ := 0
  deriving DecidableEq, Repr

/-- Lines 93-94: `if result.name not in self.history: self.history[result.name] = []`
then `self.history[result.name].append(result.status)` — append the status to
the name's sequence, creating the entry (at the end, in insertion order) on
first sight. -/
def historyAdd (name : String) (st : Status) :
    List (String × List Status) → List (String × List Status)
  | [] => [(name, [st])]
  | (k, sts) :: rest =>
    if k = name then (k, sts ++ [st]) :: rest else (k, sts) :: historyAdd name st rest

/-- The body of the inner `for result in results` loop (lines 92-95). -/
def processResult (is_latest : Bool) (s : BuildHealthAgent) (r : TestResult) :
    BuildHealthAgent :=
  { s with
    history := historyAdd r.name r.status s.history
    latest_results := if is_latest then dictSet r.name r s.latest_results else s.latest_results }

/-- One iteration of the outer loop (lines 85-95): when this file is the
latest, `total_duration` is set to the sum of this batch's durations, and each
result is folded into history (and, for the latest file, the snapshot). -/
def processBatch (is_latest : Bool) (s : BuildHealthAgent) (results : List TestResult) :
    BuildHealthAgent :=
  let s' := if is_latest then { s with total_duration := (results.map (·.duration)).sum } else s
  results.foldl (processResult is_latest) s'

/-- The outer loop of `process_builds` over the already-parsed batches, in
file order: `is_latest = (idx == len(expanded_files) - 1)` holds exactly for
the batch with an empty tail. -/
def processFrom (s : BuildHealthAgent) : List (List TestResult) → BuildHealthAgent
  | [] => s
  | b :: bs => processFrom (processBatch bs.isEmpty s b) bs

/-- `process_builds` on the resolved, sorted batch list.  An empty list
returns early (lines 78-81) leaving the freshly initialised state. -/
def process_builds (batches : List (List TestResult)) : BuildHealthAgent :=
  processFrom {} batches

/-! ### Scoring and payload (`generate_payload`, lines 97-126) -/

def STARTING_SCORE : ℤ := 100
def PENALTY_CURRENT_FAILURE : ℤ := 20
def PENALTY_FLAKY_TEST : ℤ := 10
def THRESHOLD_STABLE : ℤ := 80
def THRESHOLD_UNSTABLE : ℤ := 50

/-- Line 102: `len(statuses) >= 2 and statuses[-1] == "PASS" and "FAIL" in statuses[:-1]`. -/
def isFlakySeq (statuses : List Status) : Bool :=
  decide (2 ≤ statuses.length) && decide (statuses.getLast? = some .PASS)
    && decide (Status.FAIL ∈ statuses.dropLast)

/-- Line 98: `[r for r in self.latest_results.values() if r.status == "FAIL"]`. -/
def currentFailuresOf (s : BuildHealthAgent) : List TestResult :=
  (dictValues s.latest_results).filter (fun r => decide (r.status = Status.FAIL))

/-- Lines 100-103: the names of the flaky tests, in history insertion order. -/
def flakyTestsOf (s : BuildHealthAgent) : List String :=
  (s.history.filter (fun e => isFlakySeq e.2)).map (·.1)

/-- Lines 105-106: `max(0, 100 - failures*20 - flaky*10)`. -/
def scoreOf (failureCount flakyCount : ℕ) : ℤ :=
  max 0 (STARTING_SCORE - (failureCount : ℤ) * PENALTY_CURRENT_FAILURE
    - (flakyCount : ℤ) * PENALTY_FLAKY_TEST)

/-- Lines 108-112: "Stable", overridden to "Critical" below 50 and to
"Unstable" below 80. -/
def statusOf (score : ℤ) : String :=
  if score < THRESHOLD_UNSTABLE then "Critical"
  else if score < THRESHOLD_STABLE then "Unstable"
  else "Stable"

/-- Line 116: `(fail.message or "").strip().replace("\n", " ")`. -/
def cleanMessage (msg : String) : String := collapseNewlines (pyStrip (pyOr msg ""))

/-- Line 119: `(clean_msg[:97] + "...") if len(clean_msg) > 100 else clean_msg`. -/
def truncateError (clean_msg : String) : String :=
  if 100 < clean_msg.length then ⟨clean_msg.data.take 97⟩ ++ "..." else clean_msg

/-- One entry of `currentFailures` in the payload (lines 117-120). -/
structure FormattedFailure where
  test : String
  error : String
  deriving DecidableEq, Repr

/-- The `summary` object of the payload (line 123). -/
structure Summary where
  score : ℤ
  status : String
  totalDuration : ℚ
  deriving DecidableEq, Repr

/-- The returned payload (lines 122-126). -/
structure Payload where
  summary : Summary
  flakyTests : List String
  currentFailures : List FormattedFailure
  deriving DecidableEq, Repr

/-- `generate_payload` (lines 97-126). -/
def generate_payload (s : BuildHealthAgent) : Payload :=
  let current_failures := currentFailuresOf s
  let flaky_tests := flakyTestsOf s
  let score := scoreOf current_failures.length flaky_tests.length
  { summary := { score := score, status := statusOf score,
                 totalDuration := round2 s.total_duration }
    flakyTests := flaky_tests
    currentFailures := current_failures.map
      (fun fail => { test := fail.name, error := truncateError (cleanMessage fail.message) }) }

/-! ### Specification-side definitions used to state the claims -/

/-- First-seen insertion of a name into an ordered list of names: the shape
shared by Python's dict key order under `d[k] = v` and history creation. -/
def nameInsert (acc : List String) (n : String) : List String :=
  if n ∈ acc then acc else acc ++ [n]

/-- C10's notion of first-seen order: the order in which each test name first
appears across the processed batches, batches in processing order. -/
def firstSeenNames (batches : List (List TestResult)) : List String :=
  batches.foldl (fun acc b => b.foldl (fun acc r => nameInsert acc r.name) acc) []

/-- The message-extraction rule exactly as C9 words it: the explicit message
attribute if present, else the inline text content if present, else the
placeholder.  (Compared against the code's `nodeMessage`.) -/
def claimedMessage (attr text : Option String) (placeholder : String) : String :=
  match attr with
  | some a => a
  | none =>
    match text with
    | some t => t
    | none => placeholder

/-- C9 as amended: the explicit message attribute when present and non-empty,
else the inline text when present and non-empty, else the placeholder —
mirroring Python's emptiness-based truthiness at each fallback. -/
def amendedMessage (attr text : Option String) (placeholder : String) : String :=
  let fromText : String :=
    match text with
    | some t => if t = "" then placeholder else t
    | none => placeholder
  match attr with
  | some a => if a = "" then fromText else a
  | none => fromText

/-! ### Helper lemmas -/

theorem statusOf_eq (z : ℤ) :
    (statusOf z = "Critical" ↔ z < 50) ∧
    (statusOf z = "Unstable" ↔ 50 ≤ z ∧ z < 80) ∧
    (statusOf z = "Stable" ↔ 80 ≤ z) := by
  have hCU : ("Critical" : String) ≠ "Unstable" := by decide
  have hCS : ("Critical" : String) ≠ "Stable" := by decide
  have hUC : ("Unstable" : String) ≠ "Critical" := by decide
  have hUS : ("Unstable" : String) ≠ "Stable" := by decide
  have hSC : ("Stable" : String) ≠ "Critical" := by decide
  have hSU : ("Stable" : String) ≠ "Unstable" := by decide
  unfold statusOf THRESHOLD_UNSTABLE THRESHOLD_STABLE
  split_ifs with h1 h2
  · exact ⟨⟨fun _ => h1, fun _ => rfl⟩,
      ⟨fun hh => absurd hh hCU, fun hh => absurd h1 (by omega)⟩,
      ⟨fun hh => absurd hh hCS, fun hh => absurd hh (by omega)⟩⟩
  · exact ⟨⟨fun hh => absurd hh hUC, fun hh => absurd hh (by omega)⟩,
      ⟨fun _ => ⟨by omega, h2⟩, fun _ => rfl⟩,
      ⟨fun hh => absurd hh hUS, fun hh => absurd hh (by omega)⟩⟩
  · exact ⟨⟨fun hh => absurd hh hSC, fun hh => absurd hh (by omega)⟩,
      ⟨fun hh => absurd hh hSU, fun hh => absurd hh.2 (by omega)⟩,
      ⟨fun _ => by omega, fun _ => rfl⟩⟩

theorem truncateError_of_long (c : String) (h : 100 < c.length) :
    truncateError c = String.mk (c.data.take 97) ++ "..." ∧ (truncateError c).length = 100 := by
  have he : truncateError c = String.mk (c.data.take 97) ++ "..." := by
    unfold truncateError
    rw [if_pos h]
  refine ⟨he, ?_⟩
  rw [he, String.length_append]
  have h1 : (String.mk (c.data.take 97)).length = min 97 c.data.length :=
    List.length_take 97 c.data
  have h2 : c.data.length = c.length := rfl
  have h3 : ("..." : String).length = 3 := rfl
  omega

theorem keys_dictSet (k : String) (v : α) (d : List (String × α)) :
    (dictSet k v d).map Prod.fst = nameInsert (d.map Prod.fst) k := by
  induction d with
  | nil => simp [dictSet, nameInsert]
  | cons e t ih =>
    obtain ⟨k', v'⟩ := e
    by_cases h : k' = k
    · subst h
      simp [dictSet, nameInsert]
    · by_cases hm : k ∈ t.map Prod.fst
      · simp [dictSet, h, ih, nameInsert, hm, Ne.symm h]
      · simp [dictSet, h, ih, nameInsert, hm, Ne.symm h]

theorem keys_historyAdd (n : String) (st : Status) (h : List (String × List Status)) :
    (historyAdd n st h).map Prod.fst = nameInsert (h.map Prod.fst) n := by
  induction h with
  | nil => simp [historyAdd, nameInsert]
  | cons e t ih =>
    obtain ⟨k, sts⟩ := e
    by_cases hk : k = n
    · subst hk
      simp [historyAdd, nameInsert]
    · by_cases hm : n ∈ t.map Prod.fst
      · simp [historyAdd, hk, ih, nameInsert, hm, Ne.symm hk]
      · simp [historyAdd, hk, ih, nameInsert, hm, Ne.symm hk]

theorem nameInsert_nodup (acc : List String) (n : String) (h : acc.Nodup) :
    (nameInsert acc n).Nodup := by
  unfold nameInsert
  split_ifs with hm
  · exact h
  · simp [List.nodup_append, h, hm]

theorem dictSet_name_consistent (r : TestResult) (d : List (String × TestResult))
    (h : ∀ e ∈ d, (e.2).name = e.1) :
    ∀ e ∈ dictSet r.name r d, (e.2).name = e.1 := by
  induction d with
  | nil =>
    intro e he
    simp only [dictSet, List.mem_singleton] at he
    subst he
    rfl
  | cons hd t ih =>
    obtain ⟨k', v'⟩ := hd
    intro e he
    simp only [dictSet] at he
    split_ifs at he with hk
    · rcases List.mem_cons.mp he with rfl | het
      · rfl
      · exact h e (List.mem_cons_of_mem _ het)
    · rcases List.mem_cons.mp he with rfl | het
      · exact h (k', v') (List.mem_cons_self _ _)
      · exact ih (fun e' he' => h e' (List.mem_cons_of_mem _ he')) e het

theorem dictLookup_of_mem (d : List (String × α)) (k : String) (v : α)
    (hnd : (d.map Prod.fst).Nodup) (hmem : (k, v) ∈ d) :
    dictLookup k d = some v := by
  induction d with
  | nil => cases hmem
  | cons hd t ih =>
    obtain ⟨k', v'⟩ := hd
    simp only [List.map_cons, List.nodup_cons] at hnd
    rcases List.mem_cons.mp hmem with heq | hmem'
    · obtain ⟨rfl, rfl⟩ := Prod.mk.injEq .. ▸ heq
      simp [dictLookup]
    · have hk : k ∈ t.map Prod.fst := List.mem_map.mpr ⟨(k, v), hmem', rfl⟩
      have hne : k' ≠ k := fun hh => hnd.1 (hh ▸ hk)
      simp only [dictLookup, if_neg hne]
      exact ih hnd.2 hmem'

theorem mem_of_dictLookup (d : List (String × α)) (k : String) (v : α)
    (h : dictLookup k d = some v) : (k, v) ∈ d := by
  induction d with
  | nil => simp [dictLookup] at h
  | cons hd t ih =>
    obtain ⟨k', v'⟩ := hd
    simp only [dictLookup] at h
    split_ifs at h with hk
    · subst hk
      obtain rfl : v' = v := by injection h
      exact List.mem_cons_self _ _
    · exact List.mem_cons_of_mem _ (ih h)

theorem foldl_dictSet_nodup (rs : List TestResult) (d : List (String × TestResult))
    (hnd : (d.map Prod.fst).Nodup) :
    ((rs.foldl (fun acc r => dictSet r.name r acc) d).map Prod.fst).Nodup := by
  induction rs generalizing d with
  | nil => exact hnd
  | cons r rs ih =>
    exact ih _ (by rw [keys_dictSet]; exact nameInsert_nodup _ _ hnd)

theorem foldl_dictSet_name_consistent (rs : List TestResult) (d : List (String × TestResult))
    (h : ∀ e ∈ d, (e.2).name = e.1) :
    ∀ e ∈ rs.foldl (fun acc r => dictSet r.name r acc) d, (e.2).name = e.1 := by
  induction rs generalizing d with
  | nil => exact h
  | cons r rs ih => exact ih _ (dictSet_name_consistent r d h)

theorem foldl_processResult_latest (b : Bool) (rs : List TestResult) (s : BuildHealthAgent) :
    (rs.foldl (processResult b) s).latest_results =
      if b then rs.foldl (fun acc r => dictSet r.name r acc) s.latest_results
      else s.latest_results := by
  induction rs generalizing s with
  | nil => cases b <;> simp
  | cons r rs ih =>
    cases b
    · rw [List.foldl_cons, ih]
      simp [processResult]
    · rw [List.foldl_cons, ih]
      simp [processResult]

theorem foldl_processResult_duration (b : Bool) (rs : List TestResult) (s : BuildHealthAgent) :
    (rs.foldl (processResult b) s).total_duration = s.total_duration := by
  induction rs generalizing s with
  | nil => rfl
  | cons r rs ih =>
    rw [List.foldl_cons, ih]
    simp [processResult]

theorem foldl_processResult_history (b : Bool) (rs : List TestResult) (s : BuildHealthAgent) :
    (rs.foldl (processResult b) s).history =
      rs.foldl (fun h r => historyAdd r.name r.status h) s.history := by
  induction rs generalizing s with
  | nil => rfl
  | cons r rs ih =>
    rw [List.foldl_cons, List.foldl_cons, ih]
    simp [processResult]

theorem processBatch_latest (b : Bool) (s : BuildHealthAgent) (rs : List TestResult) :
    (processBatch b s rs).latest_results =
      if b then rs.foldl (fun acc r => dictSet r.name r acc) s.latest_results
      else s.latest_results := by
  cases b <;> simp [processBatch, foldl_processResult_latest]

theorem processBatch_duration (b : Bool) (s : BuildHealthAgent) (rs : List TestResult) :
    (processBatch b s rs).total_duration =
      if b then (rs.map (·.duration)).sum else s.total_duration := by
  cases b <;> simp [processBatch, foldl_processResult_duration]

theorem processBatch_history (b : Bool) (s : BuildHealthAgent) (rs : List TestResult) :
    (processBatch b s rs).history =
      rs.foldl (fun h r => historyAdd r.name r.status h) s.history := by
  cases b <;> simp [processBatch, foldl_processResult_history]

theorem processFrom_append_single (rest : List (List TestResult)) (s : BuildHealthAgent)
    (lastB : List TestResult) :
    processFrom s (rest ++ [lastB]) =
      processBatch true (rest.foldl (processBatch false) s) lastB := by
  induction rest generalizing s with
  | nil => rfl
  | cons b rest ih =>
    have hne : (rest ++ [lastB]).isEmpty = false := by cases rest <;> rfl
    rw [List.cons_append,
      show processFrom s (b :: (rest ++ [lastB])) =
        processFrom (processBatch (rest ++ [lastB]).isEmpty s b) (rest ++ [lastB]) from rfl,
      hne, ih, List.foldl_cons]

theorem foldl_processBatch_false_latest (rest : List (List TestResult)) (s : BuildHealthAgent) :
    (rest.foldl (processBatch false) s).latest_results = s.latest_results := by
  induction rest generalizing s with
  | nil => rfl
  | cons b rest ih =>
    rw [List.foldl_cons, ih]
    simp [processBatch_latest]

theorem processFrom_latest_good (batches : List (List TestResult)) (s : BuildHealthAgent)
    (h : ((s.latest_results.map Prod.fst).Nodup ∧ ∀ e ∈ s.latest_results, (e.2).name = e.1)) :
    (((processFrom s batches).latest_results.map Prod.fst).Nodup ∧
      ∀ e ∈ (processFrom s batches).latest_results, (e.2).name = e.1) := by
  induction batches generalizing s with
  | nil => exact h
  | cons b bs ih =>
    rw [show processFrom s (b :: bs) = processFrom (processBatch bs.isEmpty s b) bs from rfl]
    refine ih _ ?_
    rw [processBatch_latest]
    cases hb : bs.isEmpty
    · simpa using h
    · simp only [if_pos rfl]
      exact ⟨foldl_dictSet_nodup b _ h.1, foldl_dictSet_name_consistent b _ h.2⟩

theorem keys_foldl_historyAdd (rs : List TestResult) (h : List (String × List Status)) :
    ((rs.foldl (fun acc r => historyAdd r.name r.status acc) h).map Prod.fst) =
      rs.foldl (fun acc r => nameInsert acc r.name) (h.map Prod.fst) := by
  induction rs generalizing h with
  | nil => rfl
  | cons r rs ih => rw [List.foldl_cons, List.foldl_cons, ih, keys_historyAdd]

theorem processFrom_history (batches : List (List TestResult)) (s : BuildHealthAgent) :
    (processFrom s batches).history =
      batches.foldl (fun h b => b.foldl (fun h r => historyAdd r.name r.status h) h)
        s.history := by
  induction batches generalizing s with
  | nil => rfl
  | cons b bs ih =>
    rw [show processFrom s (b :: bs) = processFrom (processBatch bs.isEmpty s b) bs from rfl,
      ih, processBatch_history, List.foldl_cons]

theorem foldl_batches_history_keys (batches : List (List TestResult))
    (h : List (String × List Status)) :
    ((batches.foldl (fun h b => b.foldl (fun h r => historyAdd r.name r.status h) h) h).map
        Prod.fst) =
      batches.foldl (fun acc b => b.foldl (fun acc r => nameInsert acc r.name) acc)
        (h.map Prod.fst) := by
  induction batches generalizing h with
  | nil => rfl
  | cons b bs ih => rw [List.foldl_cons, List.foldl_cons, ih, keys_foldl_historyAdd]

theorem process_builds_history_keys (batches : List (List TestResult)) :
    (process_builds batches).history.map Prod.fst = firstSeenNames batches := by
  unfold process_builds firstSeenNames
  rw [processFrom_history, foldl_batches_history_keys]
  rfl

theorem nameInsert_foldl_nodup (rs : List TestResult) (acc : List String) (h : acc.Nodup) :
    (rs.foldl (fun acc r => nameInsert acc r.name) acc).Nodup := by
  induction rs generalizing acc with
  | nil => exact h
  | cons r rs ih => exact ih _ (nameInsert_nodup _ _ h)

theorem firstSeenNames_nodup (batches : List (List TestResult)) :
    (firstSeenNames batches).Nodup := by
  unfold firstSeenNames
  have : ∀ (bs : List (List TestResult)) (acc : List String), acc.Nodup →
      (bs.foldl (fun acc b => b.foldl (fun acc r => nameInsert acc r.name) acc) acc).Nodup := by
    intro bs
    induction bs with
    | nil => exact fun acc h => h
    | cons b bs ih => exact fun acc h => ih _ (nameInsert_foldl_nodup b acc h)
  exact this batches [] List.nodup_nil

theorem map_fst_filter_of_nodup (h : List (String × List Status)) (p : List Status → Bool)
    (hnd : (h.map Prod.fst).Nodup) :
    (h.filter (fun e => p e.2)).map Prod.fst =
      (h.map Prod.fst).filter (fun k =>
        match dictLookup k h with
        | some sts => p sts
        | none => false) := by
  induction h with
  | nil => rfl
  | cons e t ih =>
    obtain ⟨k, sts⟩ := e
    simp only [List.map_cons, List.nodup_cons] at hnd
    obtain ⟨hk, hnd'⟩ := hnd
    have hpass : ∀ k' ∈ t.map Prod.fst,
        (match dictLookup k' ((k, sts) :: t) with
          | some s => p s
          | none => false) =
        (match dictLookup k' t with
          | some s => p s
          | none => false) := by
      intro k' hk'
      have hne : k ≠ k' := fun hh => hk (hh ▸ hk')
      rw [show dictLookup k' ((k, sts) :: t) = dictLookup k' t by simp [dictLookup, hne]]
    have hself : dictLookup k ((k, sts) :: t) = some sts := by simp [dictLookup]
    by_cases hp : p sts
    · simp [List.filter_cons, hself, hp, ih hnd', List.filter_congr hpass]
    · simp [List.filter_cons, hself, hp, ih hnd', List.filter_congr hpass]

/-! ### The claims -/

/-- C1: the score produced by the scoring step is exactly
`clamp(100 - 20*failureCount - 10*flakyCount, 0, 100)` where `failureCount`
is the number of FAIL tests in the latest snapshot and `flakyCount` the number
of flaky tests, and in particular `0 ≤ score ≤ 100` for all counts. -/
theorem score_clamp_invariant :
    (∀ s : BuildHealthAgent, (generate_payload s).summary.score =
      scoreOf (currentFailuresOf s).length (flakyTestsOf s).length) ∧
    (∀ failureCount flakyCount : ℕ,
      scoreOf failureCount flakyCount =
        max 0 (min 100 (100 - 20 * (failureCount : ℤ) - 10 * (flakyCount : ℤ))) ∧
      0 ≤ scoreOf failureCount flakyCount ∧ scoreOf failureCount flakyCount ≤ 100) := by
  refine ⟨fun s => rfl, fun f k => ?_⟩
  unfold scoreOf STARTING_SCORE PENALTY_CURRENT_FAILURE PENALTY_FLAKY_TEST
  refine ⟨by omega, by omega, by omega⟩

/-- C2: the status tier is exactly Critical for score < 50, Unstable for
50 ≤ score < 80, Stable for score ≥ 80; the three tiers are mutually exclusive
(the iffs pin each label to a disjoint score range) and exhaustive. -/
theorem status_tier_partition : ∀ s : BuildHealthAgent,
    ((generate_payload s).summary.status = "Critical" ↔
      (generate_payload s).summary.score < 50) ∧
    ((generate_payload s).summary.status = "Unstable" ↔
      50 ≤ (generate_payload s).summary.score ∧ (generate_payload s).summary.score < 80) ∧
    ((generate_payload s).summary.status = "Stable" ↔
      80 ≤ (generate_payload s).summary.score) ∧
    ((generate_payload s).summary.status = "Critical" ∨
      (generate_payload s).summary.status = "Unstable" ∨
      (generate_payload s).summary.status = "Stable") := by
  intro s
  have hst : (generate_payload s).summary.status =
      statusOf ((generate_payload s).summary.score) := rfl
  rw [hst]
  obtain ⟨h1, h2, h3⟩ := statusOf_eq ((generate_payload s).summary.score)
  refine ⟨h1, h2, h3, ?_⟩
  by_cases hc : (generate_payload s).summary.score < 50
  · exact Or.inl (h1.mpr hc)
  · by_cases hu : (generate_payload s).summary.score < 80
    · exact Or.inr (Or.inl (h2.mpr ⟨by omega, hu⟩))
    · exact Or.inr (Or.inr (h3.mpr (by omega)))

/-- C3: a test name is classified flaky iff its history sequence has length
≥ 2, ends in PASS, and contains a FAIL strictly before the final entry;
with the spec's four examples. -/
theorem flaky_classification :
    (∀ (s : BuildHealthAgent) (name : String),
      name ∈ flakyTestsOf s ↔
        ∃ sts, (name, sts) ∈ s.history ∧ 2 ≤ sts.length ∧
          sts.getLast? = some Status.PASS ∧ Status.FAIL ∈ sts.dropLast) ∧
    isFlakySeq [Status.FAIL, Status.PASS] = true ∧
    isFlakySeq [Status.FAIL, Status.FAIL] = false ∧
    isFlakySeq [Status.PASS] = false ∧
    isFlakySeq [Status.PASS, Status.FAIL] = false := by
  refine ⟨?_, by decide, by decide, by decide, by decide⟩
  intro s name
  unfold flakyTestsOf
  constructor
  · intro hmem
    obtain ⟨⟨k, sts⟩, he, heq⟩ := List.mem_map.mp hmem
    obtain ⟨hin, hp⟩ := List.mem_filter.mp he
    simp only at heq
    subst heq
    refine ⟨sts, hin, ?_⟩
    have hp' := hp
    simp only [isFlakySeq, Bool.and_eq_true, decide_eq_true_eq] at hp'
    exact ⟨hp'.1.1, hp'.1.2, hp'.2⟩
  · rintro ⟨sts, hmem, h1, h2, h3⟩
    exact List.mem_map.mpr ⟨(name, sts),
      List.mem_filter.mpr ⟨hmem, by simp [isFlakySeq, h1, h2, h3]⟩, rfl⟩

/-- C7: each published error text is the cleaned message (whitespace stripped,
newlines turned into spaces); when the cleaned message exceeds 100 characters
it becomes exactly the first 97 characters followed by the 3-character
marker "...", of total length exactly 100, and otherwise it passes through
unchanged. -/
theorem error_message_truncation :
    (∀ s : BuildHealthAgent,
      (generate_payload s).currentFailures = (currentFailuresOf s).map
        (fun fail => { test := fail.name, error := truncateError (cleanMessage fail.message) })) ∧
    (∀ msg : String,
      (100 < (cleanMessage msg).length →
        truncateError (cleanMessage msg) =
          String.mk ((cleanMessage msg).data.take 97) ++ "..." ∧
        (truncateError (cleanMessage msg)).length = 100) ∧
      ((cleanMessage msg).length ≤ 100 →
        truncateError (cleanMessage msg) = cleanMessage msg)) := by
  refine ⟨fun s => rfl, fun msg => ⟨truncateError_of_long _, fun h => ?_⟩⟩
  unfold truncateError
  rw [if_neg (by omega)]

/-- C8: an empty resolved source list leaves History and LatestSnapshot empty
and yields the perfect payload: score 100, status Stable, no flaky tests, no
current failures, totalDuration 0.00. -/
theorem empty_input_perfect_score :
    process_builds [] = ({} : BuildHealthAgent) ∧
    (generate_payload (process_builds [])).summary.score = 100 ∧
    (generate_payload (process_builds [])).summary.status = "Stable" ∧
    (generate_payload (process_builds [])).flakyTests = [] ∧
    (generate_payload (process_builds [])).currentFailures = [] ∧
    (generate_payload (process_builds [])).summary.totalDuration = 0 := by
  refine ⟨rfl, by decide, by decide, rfl, rfl, ?_⟩
  show round2 0 = 0
  norm_num [round2]

/-- C6 (code bug): the `try/except` of `parse_xml_file` only protects
`ET.parse`, so a well-formed report whose `<testcase>` carries a non-numeric
`time` attribute makes the uncaught `float(...)` conversion raise `ValueError`
and abort the run, while a genuinely unparseable file is absorbed into `[]`. -/
theorem float_time_value_raises :
    parse_xml_file (XmlReport.single ⟨[⟨some "a", some "b", some "abc", none, none, false⟩]⟩) =
      Except.error "ValueError: could not convert string to float" ∧
    parse_xml_file XmlReport.malformed = Except.ok [] := ⟨rfl, rfl⟩

/-- C5: for every non-empty ordered list of batches (written `rest ++ [lastBatch]`),
the final LatestSnapshot is exactly the keyed record of the last batch's
outcomes built from the empty map — outcomes of earlier batches never appear —
and totalDuration is the sum of the last batch's durations only. -/
theorem latest_snapshot_from_last_batch :
    ∀ (rest : List (List TestResult)) (lastBatch : List TestResult),
      (process_builds (rest ++ [lastBatch])).latest_results =
        lastBatch.foldl (fun acc r => dictSet r.name r acc) [] ∧
      (process_builds (rest ++ [lastBatch])).total_duration =
        (lastBatch.map (·.duration)).sum := by
  intro rest lastB
  unfold process_builds
  rw [processFrom_append_single]
  constructor
  · rw [processBatch_latest]
    simp [foldl_processBatch_false_latest]
  · rw [processBatch_duration]
    simp

/-- C4: in every produced payload, currentFailures lists exactly the tests
whose latest-snapshot status is FAIL — membership is equivalent to a FAIL
lookup, each failing test appears once (the name list has no duplicates), and
the length equals the number of FAIL entries in the snapshot. -/
theorem current_failures_exact :
    ∀ batches : List (List TestResult),
      ((generate_payload (process_builds batches)).currentFailures.map (·.test) =
        (currentFailuresOf (process_builds batches)).map (·.name)) ∧
      (∀ name : String,
        name ∈ (generate_payload (process_builds batches)).currentFailures.map (·.test) ↔
          ∃ r : TestResult,
            dictLookup name (process_builds batches).latest_results = some r ∧
            r.status = Status.FAIL) ∧
      ((generate_payload (process_builds batches)).currentFailures.map (·.test)).Nodup ∧
      ((generate_payload (process_builds batches)).currentFailures.length =
        ((dictValues (process_builds batches).latest_results).filter
          (fun r => decide (r.status = Status.FAIL))).length) := by
  intro batches
  obtain ⟨hnd, hcons⟩ := processFrom_latest_good batches {} ⟨by simp, by simp⟩
  have h0 : (generate_payload (process_builds batches)).currentFailures =
      (currentFailuresOf (process_builds batches)).map
        (fun fail => FormattedFailure.mk fail.name (truncateError (cleanMessage fail.message))) :=
    rfl
  have h1 : (generate_payload (process_builds batches)).currentFailures.map (·.test) =
      (currentFailuresOf (process_builds batches)).map (·.name) := by
    rw [h0, List.map_map]
    rfl
  refine ⟨h1, ?_, ?_, ?_⟩
  · intro name
    rw [h1]
    constructor
    · intro hmem
      obtain ⟨r, hr, rfl⟩ := List.mem_map.mp hmem
      obtain ⟨hrv, hrs⟩ := List.mem_filter.mp hr
      obtain ⟨⟨k, v⟩, he, hev⟩ := List.mem_map.mp hrv
      have hv : v = r := hev
      have hkname : r.name = k := by
        rw [← hv]
        exact hcons (k, v) he
      have hlook : dictLookup r.name (process_builds batches).latest_results = some r := by
        rw [hkname, ← hv]
        exact dictLookup_of_mem _ k v hnd he
      refine ⟨r, hlook, ?_⟩
      simpa using hrs
    · rintro ⟨r, hlook, hfail⟩
      have hmem : (name, r) ∈ (process_builds batches).latest_results :=
        mem_of_dictLookup _ name r hlook
      have hval : r ∈ dictValues (process_builds batches).latest_results :=
        List.mem_map.mpr ⟨(name, r), hmem, rfl⟩
      have hflt : r ∈ currentFailuresOf (process_builds batches) :=
        List.mem_filter.mpr ⟨hval, by simp [hfail]⟩
      have hname : r.name = name := hcons (name, r) hmem
      exact List.mem_map.mpr ⟨r, hflt, hname⟩
  · rw [h1]
    have hsub : List.Sublist ((currentFailuresOf (process_builds batches)).map (·.name))
        ((dictValues (process_builds batches).latest_results).map (·.name)) :=
      (List.filter_sublist _).map _
    have heq : ((dictValues (process_builds batches).latest_results).map fun r => r.name) =
        (process_builds batches).latest_results.map Prod.fst := by
      unfold dictValues
      rw [List.map_map]
      exact List.map_congr_left fun e he => hcons e he
    refine List.Nodup.sublist hsub ?_
    rw [heq]
    exact hnd
  · rw [h0, List.length_map]
    rfl

/-- C10: for a fixed ordered input the flakyTests list is the deterministic
image of the input: it is exactly the first-seen-order name list filtered to
the names whose accumulated history is flaky, so flaky names appear in the
order their tests were first seen across the batches. -/
theorem flaky_first_seen_order :
    ∀ batches : List (List TestResult),
      (generate_payload (process_builds batches)).flakyTests =
        (firstSeenNames batches).filter (fun name =>
          match dictLookup name (process_builds batches).history with
          | some sts => isFlakySeq sts
          | none => false) := by
  intro batches
  have hkeys := process_builds_history_keys batches
  have hnd : ((process_builds batches).history.map Prod.fst).Nodup := by
    rw [hkeys]
    exact firstSeenNames_nodup batches
  have h1 : (generate_payload (process_builds batches)).flakyTests =
      flakyTestsOf (process_builds batches) := rfl
  rw [h1]
  unfold flakyTestsOf
  rw [map_fst_filter_of_nodup _ _ hnd, hkeys]

theorem nodeMessage_eq_amended (node : XmlNode) (ph : String) :
    nodeMessage node ph = amendedMessage node.message node.text ph := by
  obtain ⟨m, t⟩ := node
  unfold nodeMessage amendedMessage pyOr
  cases m <;> cases t <;> simp [Option.getD] <;> split_ifs <;> simp_all

theorem parseCase_err_eq (c : XmlTestCase)
    (h : (match c.time with | none => some (0 : ℚ) | some s => pyFloat s) = none) :
    parseCase c = Except.error "ValueError: could not convert string to float" := by
  unfold parseCase
  rw [h]

theorem parseCase_ok_eq (c : XmlTestCase) (d : ℚ)
    (h : (match c.time with | none => some (0 : ℚ) | some s => pyFloat s) = some d) :
    parseCase c = Except.ok
      { name := c.classname.getD "unknown" ++ "." ++ c.name.getD "unknown"
        status :=
          match c.failure, c.error with
          | some _, _ => Status.FAIL
          | none, some _ => Status.FAIL
          | none, none => if c.skipped then Status.SKIP else Status.PASS
        message :=
          match c.failure, c.error with
          | some fn, _ => nodeMessage fn "Unknown failure"
          | none, some en => nodeMessage en "Unknown error"
          | none, none => ""
        duration := d } := by
  unfold parseCase
  rw [h]
  cases c.failure <;> cases c.error <;> rfl

/-- C9 counterexample: on a FAIL case whose failure node carries a present but
empty `message` attribute and inline text "boom", the code publishes "boom",
while the claim's rule (message attribute whenever present) demands the empty
string. -/
theorem parse_message_empty_attr_cex :
    parse_xml_file (XmlReport.single ⟨[⟨some "a", some "b", none,
        some ⟨some "", some "boom"⟩, none, false⟩]⟩) =
      Except.ok [⟨"a.b", Status.FAIL, "boom", 0⟩] ∧
    claimedMessage (some "") (some "boom") "Unknown failure" = "" ∧
    ("boom" : String) ≠ "" := ⟨rfl, rfl, by decide⟩

/-- C9 (amended): per test case the status precedence FAIL (failure or error
indicator) over SKIP over PASS holds, and for FAIL cases the message is the
explicit message attribute when present AND non-empty, else the inline text
when present AND non-empty, else the fixed placeholder — Python's `or` chain
treats a present-but-empty attribute or text like an absent one. -/
theorem parse_status_and_message :
    ∀ (c : XmlTestCase) (r : TestResult), parseCase c = Except.ok r →
      (r.status = Status.FAIL ↔ (c.failure.isSome ∨ c.error.isSome)) ∧
      (r.status = Status.SKIP ↔ c.failure = none ∧ c.error = none ∧ c.skipped = true) ∧
      (r.status = Status.PASS ↔ c.failure = none ∧ c.error = none ∧ c.skipped = false) ∧
      (∀ fn, c.failure = some fn →
        r.message = amendedMessage fn.message fn.text "Unknown failure") ∧
      (c.failure = none → ∀ en, c.error = some en →
        r.message = amendedMessage en.message en.text "Unknown error") := by
  intro c r h
  cases htime : (match c.time with | none => some (0 : ℚ) | some s => pyFloat s) with
  | none =>
    rw [parseCase_err_eq c htime] at h
    exact Except.noConfusion h
  | some duration =>
    rw [parseCase_ok_eq c duration htime] at h
    obtain rfl : _ = r := Except.ok.inj h
    cases hf : c.failure with
    | some fn =>
      refine ⟨by simp, by simp, by simp, ?_, by simp⟩
      intro fn' hfn'
      obtain rfl := Option.some.inj hfn'
      exact nodeMessage_eq_amended fn "Unknown failure"
    | none =>
      cases he : c.error with
      | some en =>
        refine ⟨by simp, by simp, by simp, by simp, ?_⟩
        intro _ en' hen'
        obtain rfl := Option.some.inj hen'
        exact nodeMessage_eq_amended en "Unknown error"
      | none =>
        cases hs : c.skipped
        · exact ⟨by simp, by simp, by simp, by simp, by simp⟩
        · exact ⟨by simp, by simp, by simp, by simp, by simp⟩

/-- Witness for the amended C9 theorem at a concrete FAIL case (empty message
attribute, inline text "boom"). -/
theorem parse_status_and_message_witness :
    (({ name := "a.b", status := Status.FAIL, message := "boom", duration := 0 } :
        TestResult).status = Status.FAIL ↔
      ((some ⟨some "", some "boom"⟩ : Option XmlNode).isSome ∨
        (none : Option XmlNode).isSome)) :=
  (parse_status_and_message
    ⟨some "a", some "b", none, some ⟨some "", some "boom"⟩, none, false⟩
    { name := "a.b", status := Status.FAIL, message := "boom", duration := 0 } (by rfl)).1

end BuildHealth
